import Mathlib

/-!
Verification of the Gomoku game engine and room coordinator of the
`fwk-22-a-backend` repository.

The definitions below are a shallow embedding of the JavaScript source:

* `src/services/game.service.js` (the self-contained variant with the
  in-memory `games` map): `createEmptyBoard`, `placeStone`, `isBoardFull`,
  `countDir`, `checkWin`, `createGame`, `applyMove`, `undo`.
* `src/utils/validateMove.js`: `validateMove`.
* `src/socket/socketHandler.js` (the variant keeping a per-room 15x15
  board in a module-level `boards` map): the `"move"` event handler.

JavaScript conventions are modelled explicitly:

* a board cell is `"B"`, `"W"` or `null`; `Cell := Option Player` with
  `none` for `null`;
* reading `arr[i]` out of range yields `undefined`; we model a read as
  an `Option` where the outer `none` is `undefined`;
* `board[y][x]` with `board[y]` undefined throws a `TypeError`
  (`PlaceErr.typeErr` / `MoveErr.typeErr`);
* `undefined !== null` is true, so `placeStone`'s occupancy test treats
  an out-of-range column as occupied;
* timestamps (`Date.now()`) are passed in as an explicit `now : Nat`;
* game ids (`randomUUID`) are omitted: all claims are per-session or
  keyed maps are modelled as functions.
-/

namespace Gomoku

/-- The two stone colours, JS strings `"B"` and `"W"`. -/
inductive Player
  | B
  | W
deriving DecidableEq, Repr

/-- A board cell: `"B"`, `"W"` or `null` (`none`). -/
abbrev Cell := Option Player

/-- JS board: nested arrays, outer index `y`, inner index `x`. -/
abbrev Board := List (List Cell)

/-- `next` from game.service.js: `p === "B" ? "W" : "B"` on real players. -/
def next (p : Player) : Player :=
  match p with
  | Player.B => Player.W
  | Player.W => Player.B

/-- `next` as the JS code applies it to a possibly-`null` value:
`p === "B" ? "W" : "B"` — anything other than `"B"` maps to `"B"`. -/
def nextC (c : Cell) : Cell :=
  if c = some Player.B then some Player.W else some Player.B

/-- JS `board[y]`: `some row` when `0 ≤ y < board.length`, otherwise
`undefined` (`none`). -/
def rowAt (b : Board) (y : Int) : Option (List Cell) :=
  if 0 ≤ y ∧ y.toNat < b.length then some (b.getD y.toNat []) else none

/-- JS `row[x]`: `some cell` when in range, otherwise `undefined`. -/
def cellAt (r : List Cell) (x : Int) : Option Cell :=
  if 0 ≤ x ∧ x.toNat < r.length then some (r.getD x.toNat none) else none

/-- `createEmptyBoard(size)`: a `size × size` grid of `null`. -/
def createEmptyBoard (size : Nat) : Board :=
  List.replicate size (List.replicate size (none : Cell))

/-- Functional rendering of the clone-then-assign `b[y][x] = c` (indices
already validated by the caller). -/
def setCell (b : Board) (x y : Nat) (c : Cell) : Board :=
  b.set y ((b.getD y []).set x c)

/-- `isBoardFull`: every cell of every row is not `null`. -/
def isBoardFull (b : Board) : Bool :=
  b.all (fun r => r.all (fun c => c.isSome))

/-- Errors thrown by `placeStone`: `new Error("OCCUPIED")`, or the
`TypeError` raised by indexing into an undefined row. -/
inductive PlaceErr
  | occupied
  | typeErr
deriving DecidableEq, Repr

/-- `placeStone(board, {x, y, player})`: clone, throw `OCCUPIED` when
`b[y][x] !== null` (this includes the column-out-of-range case, where
`b[y][x]` is `undefined`), throw a `TypeError` when `b[y]` is undefined,
otherwise write the cell. -/
def placeStone (b : Board) (x y : Int) (c : Cell) : Except PlaceErr Board :=
  match rowAt b y with
  | none => Except.error PlaceErr.typeErr
  | some r =>
      if cellAt r x = some (none : Cell) then
        Except.ok (setCell b x.toNat y.toNat c)
      else
        Except.error PlaceErr.occupied

/-- The guard of the `while` loop in `countDir`:
`cy >= 0 && cy < board.length && cx >= 0 && cx < board.length &&
board[cy][cx] === player` (strict equality; `undefined` matches no
player and not `null` either). -/
def countDirCond (b : Board) (cx cy : Int) (c : Cell) : Bool :=
  decide (0 ≤ cy) && decide (cy < (b.length : Int)) &&
  decide (0 ≤ cx) && decide (cx < (b.length : Int)) &&
  (match rowAt b cy with
   | none => false
   | some r => cellAt r cx == some c)

/-- The `while` loop of `countDir`, as fuel-bounded recursion.  For every
direction the source uses (both components in `{-1, 0, 1}`, not both
zero) one coordinate moves strictly monotonically, so the loop body runs
at most `board.length` times; fuel `board.length` is exact. -/
def countDirAux (b : Board) (dx dy : Int) (c : Cell) :
    Nat → Int → Int → Nat
  | 0, _, _ => 0
  | fuel + 1, cx, cy =>
      if countDirCond b cx cy c then
        countDirAux b dx dy c fuel (cx + dx) (cy + dy) + 1
      else
        0

/-- `countDir(board, x, y, dx, dy, player)`: number of consecutive cells
equal to `player` starting one step from `(x, y)` along `(dx, dy)`. -/
def countDir (b : Board) (x y dx dy : Int) (c : Cell) : Nat :=
  countDirAux b dx dy c b.length (x + dx) (y + dy)

/-- The four scanned axes in source order: horizontal `[1,0]`, vertical
`[0,1]`, diagonal-down `[1,1]`, diagonal-up `[1,-1]`. -/
def dirs : List (Int × Int) := [(1, 0), (0, 1), (1, 1), (1, -1)]

/-- `total = 1 + countDir(.., dx, dy, ..) + countDir(.., -dx, -dy, ..)`. -/
def axisTotal (b : Board) (x y : Int) (c : Cell) (d : Int × Int) : Nat :=
  1 + countDir b x y d.1 d.2 c + countDir b x y (-d.1) (-d.2) c

/-- `allowOverlines ? total >= winLength : total === winLength`. -/
def winCond (ao : Bool) (wl total : Nat) : Bool :=
  if ao then decide (wl ≤ total) else decide (total = wl)

/-- The `{winner, line}` record returned by `checkWin`.  The code never
builds a line (`return { winner: player, line: null }`), so `line` is an
always-`none` `Option Unit`. -/
structure WinResult where
  winner : Cell
  line : Option Unit
deriving DecidableEq, Repr

/-- The `for (const [dx, dy] of dirs)` loop with its early `return`. -/
def checkWinAux (b : Board) (x y : Int) (c : Cell) (wl : Nat) (ao : Bool) :
    List (Int × Int) → WinResult
  | [] => { winner := none, line := none }
  | d :: rest =>
      if winCond ao wl (axisTotal b x y c d) then
        { winner := c, line := none }
      else
        checkWinAux b x y c wl ao rest

/-- `checkWin(board, {x, y, player, winLength, allowOverlines})`. -/
def checkWin (b : Board) (x y : Int) (c : Cell) (wl : Nat) (ao : Bool) :
    WinResult :=
  checkWinAux b x y c wl ao dirs

/-- `game.status`. -/
inductive Status
  | ongoing
  | won
  | draw
deriving DecidableEq, Repr

/-- A move-log entry `{x, y, player, index, ts}`. -/
structure Move where
  x : Int
  y : Int
  player : Cell
  index : Nat
  ts : Nat
deriving DecidableEq, Repr

/-- `game.config`. -/
structure Config where
  winLength : Nat
  allowOverlines : Bool
deriving DecidableEq, Repr

/-- A game session object (the `id` string is omitted: sessions are
treated per-object, matching the in-place mutation of the single object
stored in the `games` map). -/
structure Game where
  size : Nat
  board : Board
  nextPlayer : Cell
  status : Status
  winner : Cell
  winningLine : Option Unit
  moves : List Move
  config : Config
  createdAt : Nat
  updatedAt : Nat
deriving DecidableEq, Repr

/-- Error codes raised by the service layer (`e.code` values), plus the
untyped JS `TypeError` raised by indexing an undefined row. -/
inductive MoveErr
  | invalidState
  | outOfBounds
  | occupied
  | badRequest
  | nothingToUndo
  | typeErr
deriving DecidableEq, Repr

/-- How a `placeStone` throw surfaces from the service functions. -/
def peToMe (pe : PlaceErr) : MoveErr :=
  match pe with
  | PlaceErr.occupied => MoveErr.occupied
  | PlaceErr.typeErr => MoveErr.typeErr

/-- `createGame({size, firstPlayer, winLength, allowOverlines})`.  The
HTTP controller validates `firstPlayer ∈ {"B", "W"}` before calling the
service, so the argument is typed as a `Player`. -/
def createGame (size : Nat) (firstPlayer : Player) (winLength : Nat)
    (allowOverlines : Bool) (now : Nat) : Game :=
  { size := size
    board := createEmptyBoard size
    nextPlayer := some firstPlayer
    status := Status.ongoing
    winner := none
    winningLine := none
    moves := []
    config := { winLength := winLength, allowOverlines := allowOverlines }
    createdAt := now
    updatedAt := now }

/-- The mutation block of `applyMove` after validation succeeded and
`placeStone` returned the new board `b2`: push the move, stamp
`updatedAt`, then branch on the win-check and the full-board check. -/
def applyMoveOkGame (g : Game) (x y : Int) (now : Nat) (b2 : Board) : Game :=
  let p := g.nextPlayer
  let result := checkWin b2 x y p g.config.winLength g.config.allowOverlines
  let g1 := { g with
    board := b2
    moves := g.moves ++ [({ x := x, y := y, player := p,
                            index := g.moves.length, ts := now } : Move)]
    updatedAt := now }
  if result.winner.isSome then
    { g1 with status := Status.won, winner := result.winner,
              winningLine := result.line, nextPlayer := none }
  else if isBoardFull b2 then
    { g1 with status := Status.draw, winner := none,
              winningLine := none, nextPlayer := none }
  else
    { g1 with status := Status.ongoing, winner := none,
              winningLine := none, nextPlayer := nextC p }

/-- `applyMove({gameId, x, y})` on the resolved game object.  The second
component is the thrown error, if any; the first component is the state
of the session when the call returns or throws — all three validation
errors are raised before any mutation, which is what the definition
makes explicit by returning `g` unchanged in every error branch. -/
def applyMove (g : Game) (x y : Int) (now : Nat) : Game × Option MoveErr :=
  if g.status ≠ Status.ongoing then
    (g, some MoveErr.invalidState)
  else if x < 0 ∨ y < 0 ∨ (g.size : Int) ≤ x ∨ (g.size : Int) ≤ y then
    (g, some MoveErr.outOfBounds)
  else
    match rowAt g.board y with
    | none => (g, some MoveErr.typeErr)
    | some r =>
        if cellAt r x ≠ some (none : Cell) then
          (g, some MoveErr.occupied)
        else
          match placeStone g.board x y g.nextPlayer with
          | Except.error pe => (g, some (peToMe pe))
          | Except.ok b2 => (applyMoveOkGame g x y now b2, none)

/-- The replay loop of `undo`: fold `placeStone` over a move list. -/
def foldPlace (b : Board) (ms : List Move) : Except PlaceErr Board :=
  ms.foldlM (fun b m => placeStone b m.x m.y m.player) b

/-- `undo` rebuilds the board from scratch by replaying the kept prefix
of the move log through `placeStone`. -/
def replayBoard (size : Nat) (ms : List Move) : Except PlaceErr Board :=
  foldPlace (createEmptyBoard size) ms

/-- The mutation block of `undo` once the replayed board `b` has been
computed: note the empty-replay case hardcodes `"B"`, it does not use
the configured first player. -/
def undoOkGame (g : Game) (toUndo : Nat) (now : Nat) (b : Board) : Game :=
  let replay := g.moves.take (g.moves.length - toUndo)
  { g with
    board := b
    moves := replay
    status := Status.ongoing
    winner := none
    winningLine := none
    nextPlayer :=
      match replay.getLast? with
      | none => some Player.B
      | some m => nextC m.player
    updatedAt := now }

/-- `undo({gameId, steps})` on the resolved game object. -/
def undo (g : Game) (steps : Int) (now : Nat) : Game × Option MoveErr :=
  if steps < 1 then
    (g, some MoveErr.badRequest)
  else if g.moves.length = 0 then
    (g, some MoveErr.nothingToUndo)
  else
    let toUndo := min steps.toNat g.moves.length
    match replayBoard g.size (g.moves.take (g.moves.length - toUndo)) with
    | Except.error pe => (g, some (peToMe pe))
    | Except.ok b => (undoOkGame g toUndo now b, none)

/-- Sessions reachable through the service API: created by `createGame`
and mutated only by successful `applyMove` and `undo` calls. -/
inductive Reachable : Game → Prop
  | create (size : Nat) (fp : Player) (wl : Nat) (ao : Bool) (now : Nat) :
      Reachable (createGame size fp wl ao now)
  | move (g : Game) (x y : Int) (now : Nat) (g' : Game) :
      Reachable g → applyMove g x y now = (g', none) → Reachable g'
  | undoStep (g : Game) (steps : Int) (now : Nat) (g' : Game) :
      Reachable g → undo g steps now = (g', none) → Reachable g'

/-- Number of non-`null` cells in one row. -/
def rowStones (r : List Cell) : Nat :=
  r.countP (fun c => c.isSome)

/-- `board.flat().filter(Boolean).length`: non-`null` cells on a board. -/
def stoneCount (b : Board) : Nat :=
  (b.map rowStones).sum

/-- The session invariants maintained by the service: a session is
terminal (`won` or `draw`) exactly when `nextPlayer` is cleared, the
move log is as long as the number of stones on the board, and every
logged move carries a real player. -/
def GameInv (g : Game) : Prop :=
  ((g.status = Status.won ∨ g.status = Status.draw) ↔ g.nextPlayer = none) ∧
  g.moves.length = stoneCount g.board ∧
  ∀ m ∈ g.moves, m.player.isSome

/-- `moveLog` players alternate, starting with `p`: entry `i` is played
by `p`, entry `i+1` by `next p`, and so on. -/
def altFromB (p : Player) : List Move → Bool
  | [] => true
  | m :: rest => m.player == some p && altFromB (next p) rest

/-- The player to move after a prefix of an alternation from `p`. -/
def playerAfter (p : Player) : List Move → Player
  | [] => p
  | _ :: rest => playerAfter (next p) rest

/-- The `(x, y)` coordinates of a move list, for re-submission. -/
def coordsOf (ms : List Move) : List (Int × Int) :=
  ms.map (fun m => (m.x, m.y))

/-- Submit a list of coordinates through `applyMove` one after the
other, stopping at the first error. -/
def applyMoves (g : Game) (now : Nat) :
    List (Int × Int) → Game × Option MoveErr
  | [] => (g, none)
  | d :: rest =>
      match applyMove g d.1 d.2 now with
      | (g1, none) => applyMoves g1 now rest
      | (g1, some e) => (g1, some e)

/-- Rejection reasons produced by `validateMove` and by the socket
handler's payload guard (the JS strings are mapped to constructors:
`"Move out of bounds"`, `"Cell is already occupied"`, `"Not your turn"`,
`"Cannot move twice in a row"`, `"Invalid move data"`). -/
inductive Reason
  | moveOutOfBounds
  | cellOccupied
  | notYourTurn
  | twiceInRow
  | invalidData
deriving DecidableEq, Repr

/-- The `{valid, reason}` record of `validateMove`. -/
structure MoveResult where
  valid : Bool
  reason : Option Reason
deriving DecidableEq, Repr

/-- `validateMove({board, move, currentPlayer, lastPlayer})` from
`src/utils/validateMove.js`.  The board is indexed `board[row][col]`
and the size is `board.length` for both axes.  The handler always calls
it with `player`, `currentPlayer`, `lastPlayer` in `{"B", "W"}`, so
these are typed as `Player`. -/
def validateMove (board : Board) (row col : Int)
    (player currentPlayer lastPlayer : Player) : MoveResult :=
  let size := board.length
  if row < 0 ∨ (size : Int) ≤ row ∨ col < 0 ∨ (size : Int) ≤ col then
    { valid := false, reason := some Reason.moveOutOfBounds }
  else
    match rowAt board row with
    | none => { valid := false, reason := some Reason.cellOccupied }
    | some r =>
        if cellAt r col ≠ some (none : Cell) then
          { valid := false, reason := some Reason.cellOccupied }
        else if player ≠ currentPlayer then
          { valid := false, reason := some Reason.notYourTurn }
        else if lastPlayer = player then
          { valid := false, reason := some Reason.twiceInRow }
        else
          { valid := true, reason := none }

/-- `lastPlayer` as the socket handler derives it from stone parity:
`flat.filter(Boolean).length % 2 === 0 ? "W" : "B"`. -/
def parityLast (b : Board) : Player :=
  if stoneCount b % 2 = 0 then Player.W else Player.B

/-- `currentPlayer = lastPlayer === "B" ? "W" : "B"`. -/
def parityCurrent (b : Board) : Player :=
  if parityLast b = Player.B then Player.W else Player.B

/-- `rooms[roomId]?.players?.indexOf(player)` followed by
`playerIndex === 0 ? "B" : "W"`: the first entry of the room's player
list is Black and every other identifier — the second seat, later
joiners, and identifiers not in the room at all (`indexOf === -1`, or
`undefined` when the room is unknown) — is White. -/
def playerColorOf (roomsv : Nat → Option (List Nat)) (roomId player : Nat) :
    Player :=
  match roomsv roomId with
  | none => Player.W
  | some ps =>
      if ps.findIdx? (fun q => q == player) = some 0 then Player.B
      else Player.W

/-- Messages emitted by the socket `"move"` handler: the `moveResult`
acknowledgement to the sender, and the `move` broadcast
`{row, col, by}` to the other room members.  These are the only event
shapes the handler emits; neither carries a game status or winner. -/
inductive SockMsg
  | moveResult (valid : Bool) (reason : Option Reason)
  | moveBroadcast (row col : Int) (byPlayer : Player)
deriving DecidableEq, Repr

/-- Module-level socket state: the `rooms` and `boards` maps of
`socketHandler.js`, plus the REST game-service store, which the handler
never references (it is carried here only to state frame properties).
Identifiers (socket/room ids, JS strings) are abstracted to `Nat`;
`roomId = 0` stands for the falsy id rejected by `if (!roomId)`. -/
structure SockState where
  rooms : Nat → Option (List Nat)
  boards : Nat → Option Board
  store : Nat → Option Game

/-- The socket `"move"` event handler.  Payload `{roomId, row, col,
player}`; `row` and `col` are already numbers (the `typeof` guards
reject non-numbers together with falsy room ids, modelled by the
`roomId = 0` branch).  When the board for the room is missing it is
initialised to a fresh 15×15 grid; on a valid move the cell
`board[row][col]` is assigned in place and `{row, col, by}` is
broadcast to the rest of the room. -/
def handleMove (st : SockState) (roomId : Nat) (row col : Int)
    (player : Nat) : SockState × List SockMsg :=
  if roomId = 0 then
    (st, [SockMsg.moveResult false (some Reason.invalidData)])
  else
    let board := (st.boards roomId).getD (createEmptyBoard 15)
    let lastPlayer := parityLast board
    let currentPlayer := parityCurrent board
    let playerColor := playerColorOf st.rooms roomId player
    let result := validateMove board row col playerColor currentPlayer
      lastPlayer
    if result.valid then
      ({ st with boards := fun r =>
           if r = roomId then
             some (setCell board col.toNat row.toNat playerColor)
           else st.boards r },
       [SockMsg.moveResult result.valid result.reason,
        SockMsg.moveBroadcast row col playerColor])
    else
      ({ st with boards := fun r =>
           if r = roomId then some board else st.boards r },
       [SockMsg.moveResult result.valid result.reason])

/-! Concrete sessions and states used as test inputs by the theorems
below. -/

/-- A 5×5 board holding a vertical run of four black stones in column
`x = 0` (rows `y = 0..3`). -/
def overlineBoard : Board :=
  setCell (setCell (setCell (setCell (createEmptyBoard 5)
    0 0 (some Player.B)) 0 1 (some Player.B)) 0 2 (some Player.B))
    0 3 (some Player.B)

/-- The §8 scenario: `create(size=5, firstPlayer="B", winLength=3,
allowOverlines=false)`. -/
def c9g0 : Game := createGame 5 Player.B 3 false 0

/-- After `applyMove(0,0)` (black). -/
def c9g1 : Game := (applyMove c9g0 0 0 1).1

/-- After `applyMove(1,0)` (white). -/
def c9g2 : Game := (applyMove c9g1 1 0 2).1

/-- After `applyMove(0,1)` (black). -/
def c9g3 : Game := (applyMove c9g2 0 1 3).1

/-- After `applyMove(1,1)` (white). -/
def c9g4 : Game := (applyMove c9g3 1 1 4).1

/-- After `applyMove(0,2)` (black) — the winning move. -/
def c9final : Game := (applyMove c9g4 0 2 5).1

/-- A session created with `firstPlayer = "W"`. -/
def wGame0 : Game := createGame 5 Player.W 3 false 0

/-- The white session after white's `applyMove(0,0)`. -/
def wGame1 : Game := (applyMove wGame0 0 0 1).1

/-- The white session after `undo(1)`. -/
def wGame2 : Game := (undo wGame1 1 2).1

/-- Two-move black-first session: `applyMove(0,0)` by B, then
`applyMove(1,0)` by W. -/
def bGame2 : Game := (applyMove (applyMove (createGame 5 Player.B 3 false 0)
  0 0 1).1 1 0 2).1

/-- The coordinates undone by `undo(1)` on `bGame2`, as re-submitted. -/
def c4undone : List (Int × Int) :=
  coordsOf (bGame2.moves.drop
    (bGame2.moves.length - min (Int.toNat 1) bGame2.moves.length))

/-- Re-submission of the undone coordinates after `undo(1)` on
`bGame2`. -/
def c4replayed : Game × Option MoveErr :=
  applyMoves (undo bGame2 1 7).1 8 c4undone

/-- A socket state with a three-member room `1` (`10`, `20` and the
spectator `30`) whose board holds one black stone at `(0, 0)`. -/
def specState : SockState :=
  { rooms := fun r => if r = 1 then some [10, 20, 30] else none
    boards := fun r =>
      if r = 1 then some (setCell (createEmptyBoard 15) 0 0 (some Player.B))
      else none
    store := fun _ => none }

/-- A socket state with no rooms, boards or sessions. -/
def emptySock : SockState :=
  { rooms := fun _ => none, boards := fun _ => none, store := fun _ => none }

/-!  ## Theorems  -/

/-- The direction loop of `checkWin` returns the played value exactly
when some listed axis satisfies the win condition. -/
lemma checkWinAux_winner_eq (b : Board) (x y : Int) (c : Cell) (wl : Nat)
    (ao : Bool) (ds : List (Int × Int)) :
    (checkWinAux b x y c wl ao ds).winner =
      if ds.any (fun d => winCond ao wl (axisTotal b x y c d)) then c
      else none := by
  induction ds with
  | nil => simp [checkWinAux]
  | cons d rest ih =>
      by_cases h : winCond ao wl (axisTotal b x y c d) = true
      · simp [checkWinAux, h]
      · have hh : winCond ao wl (axisTotal b x y c d) = false := by
          simpa using h
        simp only [checkWinAux, List.any_cons]
        rw [if_neg h, ih]
        simp only [hh, Bool.false_or]

/-- C1: `checkWin` declares a win (returns the played player as winner)
if and only if some axis, among horizontal, vertical, diagonal-down and
diagonal-up, has `total = 1 + forwardCount + backwardCount` satisfying
`allowOverlines ? total >= winLength : total == winLength`; the result
is never any other player; and, in particular, with `allowOverlines`
false a position in which no axis totals exactly `winLength` — for
example one whose run through the cell is strictly longer — is not a
win. -/
theorem checkWin_axis_characterisation (b : Board) (x y : Int) (p : Player)
    (wl : Nat) (ao : Bool) :
    ((checkWin b x y (some p) wl ao).winner = some p ↔
      ∃ d ∈ dirs, winCond ao wl (axisTotal b x y (some p) d) = true) ∧
    ((checkWin b x y (some p) wl ao).winner = some p ∨
      (checkWin b x y (some p) wl ao).winner = none) ∧
    (ao = false → (∀ d ∈ dirs, axisTotal b x y (some p) d ≠ wl) →
      (checkWin b x y (some p) wl ao).winner = none) := by
  have hw := checkWinAux_winner_eq b x y (some p) wl ao dirs
  rw [show checkWin b x y (some p) wl ao = checkWinAux b x y (some p) wl ao dirs
    from rfl]
  rw [hw]
  by_cases h : dirs.any (fun d => winCond ao wl (axisTotal b x y (some p) d)) = true
  · rw [if_pos h]
    rw [List.any_eq_true] at h
    refine ⟨⟨fun _ => h, fun _ => rfl⟩, Or.inl rfl, fun hao hne => ?_⟩
    obtain ⟨d, hd, hcond⟩ := h
    subst hao
    simp only [winCond, if_neg (by simp : ¬ (false = true)), decide_eq_true_eq] at hcond
    exact absurd hcond (hne d hd)
  · rw [if_neg h]
    rw [List.any_eq_true] at h
    refine ⟨⟨fun habs => absurd habs (by simp), fun hex => absurd hex h⟩,
      Or.inr rfl, fun _ _ => rfl⟩

/-- Witness for C1, third conjunct: on a 5×5 board with a vertical run
of four black stones through the played cell `(0, 3)`, `winLength = 3`
and overlines disallowed, no axis totals exactly 3 and no win is
declared — the strictly-longer run does not count. -/
theorem checkWin_axis_characterisation_witness :
    (false = false) ∧
    (∀ d ∈ dirs, axisTotal overlineBoard 0 3 (some Player.B) d ≠ 3) ∧
    (checkWin overlineBoard 0 3 (some Player.B) 3 false).winner = none :=
  ⟨rfl, by decide,
   (checkWin_axis_characterisation overlineBoard 0 3 Player.B 3
     false).2.2 rfl (by decide)⟩

/-- C3: every failing `applyMove` call — `InvalidState`, `OutOfBounds`,
`CellOccupied`, or a propagated `placeStone` throw — returns the session
completely unchanged: board, move log, status, winner, winningLine,
nextPlayer, updatedAt (and every other field) are identical to their
values before the call, because all errors are raised before any
mutation. -/
theorem applyMove_error_leaves_state (g : Game) (x y : Int) (now : Nat)
    (e : MoveErr) (h : (applyMove g x y now).2 = some e) :
    (applyMove g x y now).1 = g := by
  revert h
  unfold applyMove
  split
  · intro _; rfl
  · split
    · intro _; rfl
    · split
      · intro _; rfl
      · split
        · intro _; rfl
        · split
          · intro _; rfl
          · intro h; simp at h

/-- Witness for C3: `applyMove(-1, 0)` on a fresh 5×5 session fails with
`OutOfBounds` and leaves the session unchanged. -/
theorem applyMove_error_leaves_state_witness :
    (applyMove c9g0 (-1) 0 1).2 = some MoveErr.outOfBounds ∧
    (applyMove c9g0 (-1) 0 1).1 = c9g0 :=
  ⟨by decide,
   applyMove_error_leaves_state c9g0 (-1) 0 1 MoveErr.outOfBounds (by decide)⟩

/-- C9 counterexample: in the §8 scenario every move succeeds and the
final state is a black win, but `winningLine` is `null` — `checkWin`
always returns `line: null`, so no geometric descriptor of the column
`x = 0` run is ever recorded. -/
theorem scenario_winningLine_null :
    (applyMove c9g4 0 2 5).2 = none ∧ c9final.status = Status.won ∧
    c9final.winningLine = none := by decide

/-- C9 as amended: `create(size=5, firstPlayer="B", winLength=3,
allowOverlines=false)` followed by `applyMove(0,0)`, `applyMove(1,0)`,
`applyMove(0,1)`, `applyMove(1,1)`, `applyMove(0,2)` succeeds at every
step and ends with `status = won`, `winner = "B"` and
`winningLine = null` (the code never records a winning line). -/
theorem scenario_won_by_black :
    (applyMove c9g0 0 0 1).2 = none ∧
    (applyMove c9g1 1 0 2).2 = none ∧
    (applyMove c9g2 0 1 3).2 = none ∧
    (applyMove c9g3 1 1 4).2 = none ∧
    (applyMove c9g4 0 2 5).2 = none ∧
    c9final.status = Status.won ∧
    c9final.winner = some Player.B ∧
    c9final.winningLine = none ∧
    c9final.nextPlayer = none := by decide

/-- Inversion for a successful `undo`: the arguments passed the two
guards, the replay of the kept prefix succeeded, and the result is the
mutation block applied to the replayed board. -/
lemma undo_ok_inv (g : Game) (steps : Int) (now : Nat) (g' : Game)
    (h : undo g steps now = (g', none)) :
    ∃ b, replayBoard g.size
        (g.moves.take (g.moves.length - min steps.toNat g.moves.length)) =
        Except.ok b ∧
      g' = undoOkGame g (min steps.toNat g.moves.length) now b := by
  revert h
  unfold undo
  split
  · intro h; simp at h
  · split
    · intro h; simp at h
    · intro h
      dsimp only at h
      split at h
      · simp at h
      · rename_i b heq
        exact ⟨b, heq, ((Prod.mk.injEq _ _ _ _).mp h).1.symm⟩

/-- C5 counterexample: a session created with `firstPlayer = "W"`; after
white's successful `applyMove(0,0)` and a successful `undo(1)` the kept
replay prefix is empty, yet `nextPlayer` is `"B"`, not the configured
first player `"W"` — line 196 of game.service.js hardcodes `"B"`. -/
theorem undo_ignores_firstPlayer :
    wGame0.nextPlayer = some Player.W ∧
    (applyMove wGame0 0 0 1).2 = none ∧
    (undo wGame1 1 2).2 = none ∧
    wGame2.moves = [] ∧
    wGame2.nextPlayer = some Player.B ∧
    wGame2.nextPlayer ≠ some Player.W := by decide

/-- C5 as amended: every successful `undo` resets `status` to ongoing,
clears `winner` and `winningLine`, and sets `nextPlayer` to player `"B"`
when the kept replay prefix is empty — regardless of the configured
first player — and otherwise to the opponent (`next`) of the last kept
move's player. -/
theorem undo_resets_state (g : Game) (steps : Int) (now : Nat) (g' : Game)
    (h : undo g steps now = (g', none)) :
    g'.status = Status.ongoing ∧ g'.winner = none ∧ g'.winningLine = none ∧
    (g'.moves = [] → g'.nextPlayer = some Player.B) ∧
    (∀ m, g'.moves.getLast? = some m → g'.nextPlayer = nextC m.player) := by
  obtain ⟨b, -, rfl⟩ := undo_ok_inv g steps now g' h
  refine ⟨rfl, rfl, rfl, ?_, ?_⟩
  · intro hmv
    simp only [undoOkGame] at hmv ⊢
    rw [hmv]
    rfl
  · intro m hm
    simp only [undoOkGame] at hm ⊢
    rw [hm]

/-- Witness for C5 (amended): undoing one move of a two-move black-first
session succeeds, keeps the black move, and hands the turn back to
white. -/
theorem undo_resets_state_witness :
    undo bGame2 1 3 = ((undo bGame2 1 3).1, none) ∧
    (undo bGame2 1 3).1.status = Status.ongoing ∧
    (undo bGame2 1 3).1.winner = none ∧
    (undo bGame2 1 3).1.winningLine = none ∧
    (undo bGame2 1 3).1.nextPlayer = some Player.W :=
  have h : undo bGame2 1 3 = ((undo bGame2 1 3).1, none) := by decide
  have hc := undo_resets_state bGame2 1 3 (undo bGame2 1 3).1 h
  ⟨h, hc.1, hc.2.1, hc.2.2.1, by
    have hlast := hc.2.2.2.2
      ({ x := 0, y := 0, player := some Player.B, index := 0, ts := 1 } : Move)
      (by decide)
    simpa [nextC] using hlast⟩

/-- `next` as the code computes it on a real player. -/
lemma nextC_some (p : Player) : nextC (some p) = some (next p) := by
  cases p <;> rfl

/-- On a non-ongoing session `applyMove` fails immediately with
`InvalidState`. -/
lemma applyMove_not_ongoing (g : Game) (x y : Int) (now : Nat)
    (h : g.status ≠ Status.ongoing) :
    applyMove g x y now = (g, some MoveErr.invalidState) := by
  unfold applyMove
  rw [if_pos h]

/-- Inversion for a successful `applyMove`: the session was ongoing,
`placeStone` succeeded, and the result is the mutation block. -/
lemma applyMove_ok_inv (g : Game) (x y : Int) (now : Nat) (g' : Game)
    (h : applyMove g x y now = (g', none)) :
    g.status = Status.ongoing ∧
    ∃ b2, placeStone g.board x y g.nextPlayer = Except.ok b2 ∧
      g' = applyMoveOkGame g x y now b2 := by
  revert h
  unfold applyMove
  split
  · intro h; simp at h
  · rename_i hst
    split
    · intro h; simp at h
    · split
      · intro h; simp at h
      · split
        · intro h; simp at h
        · split
          · intro h; simp at h
          · rename_i b2 heq
            intro h
            refine ⟨by simpa using hst, b2, heq,
              ((Prod.mk.injEq _ _ _ _).mp h).1.symm⟩

/-- Every branch of the post-`placeStone` mutation block installs the
new board. -/
lemma applyMoveOkGame_board (g : Game) (x y : Int) (now : Nat)
    (b2 : Board) : (applyMoveOkGame g x y now b2).board = b2 := by
  unfold applyMoveOkGame
  dsimp only
  split
  · rfl
  · split <;> rfl

/-- After the mutation block the session is either terminal with
`nextPlayer` cleared, or ongoing with the turn handed to the other
player. -/
lemma applyMoveOkGame_turn (g : Game) (x y : Int) (now : Nat)
    (b2 : Board) :
    ((applyMoveOkGame g x y now b2).status ≠ Status.ongoing ∧
      (applyMoveOkGame g x y now b2).nextPlayer = none) ∨
    ((applyMoveOkGame g x y now b2).status = Status.ongoing ∧
      (applyMoveOkGame g x y now b2).nextPlayer = nextC g.nextPlayer) := by
  unfold applyMoveOkGame
  dsimp only
  split
  · exact Or.inl ⟨by simp, rfl⟩
  · split
    · exact Or.inl ⟨by simp, rfl⟩
    · exact Or.inr ⟨rfl, rfl⟩

/-- Alternation splits across list concatenation. -/
lemma altFromB_append (L1 L2 : List Move) :
    ∀ p, altFromB p (L1 ++ L2) = true →
      altFromB p L1 = true ∧ altFromB (playerAfter p L1) L2 = true := by
  induction L1 with
  | nil => intro p h; exact ⟨rfl, h⟩
  | cons m rest ih =>
      intro p h
      simp only [List.cons_append, altFromB, Bool.and_eq_true,
        beq_iff_eq] at h
      obtain ⟨hm, hrest⟩ := h
      obtain ⟨h1, h2⟩ := ih (next p) hrest
      exact ⟨by simp [altFromB, hm, h1], h2⟩

/-- Along an alternation from `p`, the undo rule "B if the kept prefix
is empty else opponent of the last kept move" computes exactly the
player whose turn comes after the prefix. -/
lemma altFromB_nextAfter (L : List Move) :
    ∀ p, altFromB p L = true →
      (match L.getLast? with
        | none => some p
        | some m => nextC m.player) = some (playerAfter p L) := by
  induction L with
  | nil => intro p _; rfl
  | cons m rest ih =>
      intro p h
      simp only [altFromB, Bool.and_eq_true, beq_iff_eq] at h
      obtain ⟨hm, hrest⟩ := h
      cases rest with
      | nil =>
          simp only [List.getLast?_singleton, playerAfter, hm, nextC_some]
      | cons m2 rs =>
          rw [List.getLast?_cons_cons]
          exact ih (next p) hrest

/-- `foldPlace` over an empty list. -/
lemma foldPlace_nil (b : Board) : foldPlace b [] = Except.ok b := rfl

/-- `foldPlace` over a cons. -/
lemma foldPlace_cons (b : Board) (m : Move) (ms : List Move) :
    foldPlace b (m :: ms) =
      match placeStone b m.x m.y m.player with
      | Except.ok b1 => foldPlace b1 ms
      | Except.error e => Except.error e := by
  unfold foldPlace
  rw [List.foldlM_cons]
  cases placeStone b m.x m.y m.player <;> rfl

/-- `foldPlace` over an append runs the two halves in sequence. -/
lemma foldPlace_append (L1 L2 : List Move) :
    ∀ b, foldPlace b (L1 ++ L2) =
      match foldPlace b L1 with
      | Except.ok b1 => foldPlace b1 L2
      | Except.error e => Except.error e := by
  induction L1 with
  | nil => intro b; rfl
  | cons m rest ih =>
      intro b
      rw [List.cons_append, foldPlace_cons, foldPlace_cons]
      cases placeStone b m.x m.y m.player with
      | ok b1 => exact ih b1
      | error e => rfl

/-- Re-submitting, through `applyMove`, the coordinates of a move list
that alternates from the session's next player reproduces exactly what
replaying those moves through `placeStone` produces: if the whole
submission succeeds, the final board is the replayed board. -/
lemma applyMoves_reproduce (ms : List Move) :
    ∀ (g : Game) (p : Player) (now : Nat) (gF : Game) (bF : Board),
      g.status = Status.ongoing → g.nextPlayer = some p →
      altFromB p ms = true →
      foldPlace g.board ms = Except.ok bF →
      applyMoves g now (coordsOf ms) = (gF, none) →
      gF.board = bF := by
  induction ms with
  | nil =>
      intro g p now gF bF _ _ _ hfold happ
      simp only [coordsOf, List.map_nil, applyMoves] at happ
      obtain ⟨rfl, -⟩ := (Prod.mk.injEq _ _ _ _).mp happ
      simpa [foldPlace_nil] using hfold
  | cons m rest ih =>
      intro g p now gF bF hst hnp halt hfold happ
      simp only [altFromB, Bool.and_eq_true, beq_iff_eq] at halt
      obtain ⟨hm, hrest⟩ := halt
      simp only [coordsOf, List.map_cons, applyMoves] at happ
      revert happ
      split
      · rename_i g1 hA
        intro happ
        obtain ⟨-, b2, hps, hg1⟩ := applyMove_ok_inv g m.x m.y now g1 hA
        rw [foldPlace_cons, hm, ← hnp, hps] at hfold
        have hfold2 : foldPlace b2 rest = Except.ok bF := hfold
        have hb1 : g1.board = b2 := by rw [hg1]; exact applyMoveOkGame_board ..
        cases rest with
        | nil =>
            simp only [coordsOf, List.map_nil, applyMoves] at happ
            obtain ⟨rfl, -⟩ := (Prod.mk.injEq _ _ _ _).mp happ
            rw [hb1]
            simpa [foldPlace_nil] using hfold2
        | cons m2 rs =>
            rcases applyMoveOkGame_turn g m.x m.y now b2 with
              ⟨hterm, -⟩ | ⟨hok, hnxt⟩
            · rw [← hg1] at hterm
              have hfail := applyMove_not_ongoing g1 m2.x m2.y now hterm
              simp [applyMoves, hfail] at happ
            · refine ih g1 (next p) now gF bF ?_ ?_ hrest ?_ happ
              · rw [hg1]; exact hok
              · rw [hg1, hnxt, hnp, nextC_some]
              · rw [hb1]; exact hfold2
      · rename_i g1 e hA
        intro happ
        simp at happ

/-- C4 counterexample: for the reachable session created with
`firstPlayer = "W"` holding the single white move `(0,0)`, `undo(1)`
succeeds and re-applying the one undone move through `applyMove` also
succeeds — but the resulting board differs from the pre-undo board,
because the hardcoded post-undo `nextPlayer = "B"` attributes the
replayed move to black instead of white. -/
theorem undo_replay_differs :
    (applyMove wGame0 0 0 1).2 = none ∧
    wGame1.moves.length = 1 ∧
    (undo wGame1 1 2).2 = none ∧
    (applyMoves wGame2 3 (coordsOf (wGame1.moves.drop 0))).2 = none ∧
    (applyMoves wGame2 3 (coordsOf (wGame1.moves.drop 0))).1.board ≠
      wGame1.board := by decide

/-- C4 as amended: for every session whose move log strictly alternates
starting with player `"B"` and whose board is exactly the replay of its
move log (both hold for every session played from `firstPlayer = "B"`),
a successful `undo(steps)` followed by a successful re-submission of the
undone moves, in order, through `applyMove` reproduces the pre-undo
board bit-for-bit. -/
theorem undo_then_replay_board (g : Game) (steps : Int) (now now2 : Nat)
    (g' gF : Game)
    (halt : altFromB Player.B g.moves = true)
    (hcons : replayBoard g.size g.moves = Except.ok g.board)
    (hundo : undo g steps now = (g', none))
    (happ : applyMoves g' now2
      (coordsOf (g.moves.drop
        (g.moves.length - min steps.toNat g.moves.length))) = (gF, none)) :
    gF.board = g.board := by
  obtain ⟨b, hrep, rfl⟩ := undo_ok_inv g steps now g' hundo
  set n := g.moves.length - min steps.toNat g.moves.length with hn
  have hsplit : g.moves.take n ++ g.moves.drop n = g.moves :=
    List.take_append_drop ..
  obtain ⟨haltK, haltU⟩ :=
    altFromB_append (g.moves.take n) (g.moves.drop n) Player.B
      (by rw [hsplit]; exact halt)
  have hconsk : foldPlace (createEmptyBoard g.size)
      (g.moves.take n ++ g.moves.drop n) = Except.ok g.board := by
    rw [hsplit]; exact hcons
  rw [foldPlace_append] at hconsk
  rw [show replayBoard g.size (g.moves.take n) =
        foldPlace (createEmptyBoard g.size) (g.moves.take n) from rfl] at hrep
  rw [hrep] at hconsk
  have hconsk2 : foldPlace b (g.moves.drop n) = Except.ok g.board := hconsk
  have hb : (undoOkGame g (min steps.toNat g.moves.length) now b).board = b :=
    rfl
  have hstat : (undoOkGame g (min steps.toNat g.moves.length) now b).status =
      Status.ongoing := rfl
  have hnextp : (undoOkGame g (min steps.toNat g.moves.length) now
      b).nextPlayer = some (playerAfter Player.B (g.moves.take n)) := by
    show (match (g.moves.take n).getLast? with
          | none => some Player.B
          | some m => nextC m.player) =
        some (playerAfter Player.B (g.moves.take n))
    exact altFromB_nextAfter (g.moves.take n) Player.B haltK
  exact applyMoves_reproduce (g.moves.drop n)
    (undoOkGame g (min steps.toNat g.moves.length) now b)
    (playerAfter Player.B (g.moves.take n)) now2 gF g.board hstat hnextp
    haltU (by rw [hb]; exact hconsk2) happ

/-- Witness for C4 (amended): on the two-move black-first session,
`undo(1)` followed by re-submitting the undone white move reproduces
the original board. -/
theorem undo_then_replay_board_witness :
    altFromB Player.B bGame2.moves = true ∧
    replayBoard bGame2.size bGame2.moves = Except.ok bGame2.board ∧
    undo bGame2 1 7 = ((undo bGame2 1 7).1, none) ∧
    c4replayed = (c4replayed.1, none) ∧
    c4replayed.1.board = bGame2.board :=
  have h1 : altFromB Player.B bGame2.moves = true := by decide
  have h2 : replayBoard bGame2.size bGame2.moves = Except.ok bGame2.board := by
    rfl
  have h3 : undo bGame2 1 7 = ((undo bGame2 1 7).1, none) := by decide
  have h4 : c4replayed = (c4replayed.1, none) := by decide
  ⟨h1, h2, h3, h4,
   undo_then_replay_board bGame2 1 7 8 (undo bGame2 1 7).1 c4replayed.1
     h1 h2 h3 h4⟩

/-- The code's `next` never produces `null`. -/
lemma nextC_ne_none (c : Cell) : nextC c ≠ none := by
  unfold nextC
  split <;> simp

/-- Inversion for a defined row read. -/
lemma rowAt_some_inv (b : Board) (y : Int) (r : List Cell)
    (h : rowAt b y = some r) :
    0 ≤ y ∧ y.toNat < b.length ∧ r = b.getD y.toNat [] := by
  revert h
  unfold rowAt
  split
  · rename_i hc
    intro h
    exact ⟨hc.1, hc.2, (Option.some.injEq _ _ ▸ h).symm⟩
  · intro h
    simp at h

/-- Inversion for a defined cell read. -/
lemma cellAt_some_inv (r : List Cell) (x : Int) (v : Cell)
    (h : cellAt r x = some v) :
    0 ≤ x ∧ x.toNat < r.length ∧ v = r.getD x.toNat none := by
  revert h
  unfold cellAt
  split
  · rename_i hc
    intro h
    exact ⟨hc.1, hc.2, (Option.some.injEq _ _ ▸ h).symm⟩
  · intro h
    simp at h

/-- Inversion for a successful `placeStone`: the target was an in-range
`null` cell and the result is the written board. -/
lemma placeStone_ok_inv (b : Board) (x y : Int) (c : Cell) (b' : Board)
    (h : placeStone b x y c = Except.ok b') :
    0 ≤ y ∧ y.toNat < b.length ∧ 0 ≤ x ∧
    x.toNat < (b.getD y.toNat []).length ∧
    (b.getD y.toNat []).getD x.toNat none = none ∧
    b' = setCell b x.toNat y.toNat c := by
  revert h
  unfold placeStone
  split
  · intro h; simp at h
  · rename_i r hrow
    split
    · rename_i hcell
      intro h
      obtain ⟨hy0, hylt, rfl⟩ := rowAt_some_inv b y r hrow
      obtain ⟨hx0, hxlt, hv⟩ := cellAt_some_inv _ x _ hcell
      exact ⟨hy0, hylt, hx0, hxlt, hv.symm,
        ((Except.ok.injEq _ _).mp h).symm⟩
    · intro h; simp at h

/-- Writing a real player into an in-range `null` cell raises the row's
stone count by one. -/
lemma rowStones_set_succ (p : Player) :
    ∀ (r : List Cell) (x : Nat), x < r.length → r.getD x none = none →
      rowStones (r.set x (some p)) = rowStones r + 1 := by
  intro r
  induction r with
  | nil => intro x hx _; simp at hx
  | cons c t ih =>
      intro x hx hc
      cases x with
      | zero =>
          rw [List.getD_cons_zero] at hc
          subst hc
          simp [rowStones, List.countP_cons]
      | succ x' =>
          rw [List.getD_cons_succ] at hc
          have := ih x' (by simpa using hx) hc
          simp only [List.set_cons_succ, rowStones, List.countP_cons] at this ⊢
          omega

/-- Replacing a row by one holding one more stone raises the board's
stone count by one. -/
lemma stoneCount_set_succ (v : List Cell) :
    ∀ (b : Board) (y : Nat), y < b.length →
      rowStones v = rowStones (b.getD y []) + 1 →
      stoneCount (b.set y v) = stoneCount b + 1 := by
  intro b
  induction b with
  | nil => intro y hy _; simp at hy
  | cons r t ih =>
      intro y hy hv
      cases y with
      | zero =>
          rw [List.getD_cons_zero] at hv
          simp only [List.set_cons_zero, stoneCount, List.map_cons,
            List.sum_cons] at hv ⊢
          omega
      | succ y' =>
          rw [List.getD_cons_succ] at hv
          have := ih y' (by simpa using hy) hv
          simp only [List.set_cons_succ, stoneCount, List.map_cons,
            List.sum_cons] at this ⊢
          omega

/-- A successful `placeStone` of a real player adds exactly one stone. -/
lemma stoneCount_place (b : Board) (x y : Int) (p : Player) (b' : Board)
    (h : placeStone b x y (some p) = Except.ok b') :
    stoneCount b' = stoneCount b + 1 := by
  obtain ⟨-, hylt, -, hxlt, hcell, rfl⟩ := placeStone_ok_inv b x y (some p) b' h
  unfold setCell
  exact stoneCount_set_succ _ b y.toNat hylt
    (rowStones_set_succ p _ x.toNat hxlt hcell)

/-- A fresh board has no stones. -/
lemma stoneCount_empty (n : Nat) : stoneCount (createEmptyBoard n) = 0 := by
  simp [stoneCount, createEmptyBoard, rowStones, List.map_replicate,
    List.sum_replicate, List.countP_eq_zero]

/-- A successful replay of moves by real players adds one stone per
move. -/
lemma foldPlace_stones (ms : List Move) :
    ∀ b0 bF, (∀ m ∈ ms, m.player.isSome) → foldPlace b0 ms = Except.ok bF →
      stoneCount bF = stoneCount b0 + ms.length := by
  induction ms with
  | nil =>
      intro b0 bF _ h
      rw [foldPlace_nil] at h
      simp [((Except.ok.injEq _ _).mp h).symm]
  | cons m rest ih =>
      intro b0 bF hall h
      rw [foldPlace_cons] at h
      revert h
      split
      · rename_i b1 hp
        intro h
        obtain ⟨p, hp'⟩ := Option.isSome_iff_exists.mp (hall m (by simp))
        rw [hp'] at hp
        have h1 := stoneCount_place _ _ _ _ _ hp
        have h2 := ih b1 bF (fun m' hm' => hall m' (by simp [hm'])) h
        simp only [List.length_cons]
        omega
      · intro h; simp at h

/-- A fresh session satisfies the invariants. -/
lemma inv_create (size : Nat) (fp : Player) (wl : Nat) (ao : Bool)
    (now : Nat) : GameInv (createGame size fp wl ao now) := by
  refine ⟨by simp [createGame], ?_, by simp [createGame]⟩
  simp [createGame, stoneCount_empty]

/-- The mutation block of `applyMove` preserves the invariants. -/
lemma inv_applyMoveOk (g : Game) (x y : Int) (now : Nat) (b2 : Board)
    (hst : g.status = Status.ongoing) (hinv : GameInv g)
    (hps : placeStone g.board x y g.nextPlayer = Except.ok b2) :
    GameInv (applyMoveOkGame g x y now b2) := by
  obtain ⟨hi1, hi2, hi3⟩ := hinv
  have hnp : g.nextPlayer.isSome := by
    cases hnp0 : g.nextPlayer with
    | some p => rfl
    | none =>
        rcases hi1.mpr hnp0 with hw | hd
        · rw [hst] at hw; cases hw
        · rw [hst] at hd; cases hd
  obtain ⟨p, hp⟩ := Option.isSome_iff_exists.mp hnp
  have hplus : stoneCount b2 = stoneCount g.board + 1 :=
    stoneCount_place g.board x y p b2 (by rw [← hp]; exact hps)
  have hmv : ∀ m ∈ g.moves ++
      [({ x := x, y := y, player := g.nextPlayer,
          index := g.moves.length, ts := now } : Move)], m.player.isSome := by
    intro m hm
    rcases List.mem_append.mp hm with h | h
    · exact hi3 m h
    · rw [List.mem_singleton.mp h]
      exact hnp
  have hlen : (g.moves ++
      [({ x := x, y := y, player := g.nextPlayer,
          index := g.moves.length, ts := now } : Move)]).length =
      stoneCount b2 := by
    simp [List.length_append, hi2, hplus]
  unfold applyMoveOkGame
  dsimp only
  split
  · exact ⟨by simp, hlen, hmv⟩
  · split
    · exact ⟨by simp, hlen, hmv⟩
    · refine ⟨?_, hlen, hmv⟩
      constructor
      · intro hor; rcases hor with h | h <;> cases h
      · intro hnone; exact absurd hnone (nextC_ne_none _)

/-- A successful `applyMove` preserves the invariants. -/
lemma inv_applyMove (g : Game) (x y : Int) (now : Nat) (g' : Game)
    (hinv : GameInv g) (h : applyMove g x y now = (g', none)) :
    GameInv g' := by
  obtain ⟨hst, b2, hps, rfl⟩ := applyMove_ok_inv g x y now g' h
  exact inv_applyMoveOk g x y now b2 hst hinv hps

/-- A successful `undo` re-establishes the invariants from scratch. -/
lemma inv_undo (g : Game) (steps : Int) (now : Nat) (g' : Game)
    (hinv : GameInv g) (h : undo g steps now = (g', none)) :
    GameInv g' := by
  obtain ⟨b, hrep, rfl⟩ := undo_ok_inv g steps now g' h
  obtain ⟨-, -, hi3⟩ := hinv
  have hkeep3 : ∀ m ∈ g.moves.take
      (g.moves.length - min steps.toNat g.moves.length), m.player.isSome :=
    fun m hm => hi3 m (List.take_subset _ _ hm)
  have hstones := foldPlace_stones _ _ _ hkeep3 hrep
  refine ⟨?_, ?_, hkeep3⟩
  · constructor
    · intro hor; rcases hor with h | h <;> cases h
    · intro hnone
      revert hnone
      show (match (g.moves.take
          (g.moves.length - min steps.toNat g.moves.length)).getLast? with
        | none => some Player.B
        | some m => nextC m.player) = none → _
      split
      · intro hh; cases hh
      · intro hh; exact absurd hh (nextC_ne_none _)
  · show (g.moves.take
        (g.moves.length - min steps.toNat g.moves.length)).length =
      stoneCount b
    rw [hstones, stoneCount_empty]
    omega

/-- Every reachable session satisfies the invariants. -/
lemma reachable_inv (g : Game) (h : Reachable g) : GameInv g := by
  induction h with
  | create size fp wl ao now => exact inv_create size fp wl ao now
  | move g x y now g' _ heq ih => exact inv_applyMove g x y now g' ih heq
  | undoStep g steps now g' _ heq ih => exact inv_undo g steps now g' ih heq

/-- C6: for every reachable session, `status ∈ {Won, Draw}` exactly when
`nextPlayer` is `None`, and `status = Ongoing` exactly when `nextPlayer`
is set; since reachability is closed under successful `applyMove` and
`undo`, both operations preserve the equivalence. -/
theorem status_terminal_iff_no_next (g : Game) (h : Reachable g) :
    ((g.status = Status.won ∨ g.status = Status.draw) ↔
      g.nextPlayer = none) ∧
    (g.status = Status.ongoing ↔ g.nextPlayer ≠ none) := by
  obtain ⟨hi1, -, -⟩ := reachable_inv g h
  refine ⟨hi1, ?_, ?_⟩
  · intro ho hn
    rcases hi1.mpr hn with hw | hd
    · rw [ho] at hw; cases hw
    · rw [ho] at hd; cases hd
  · intro hne
    cases hstat : g.status with
    | ongoing => rfl
    | won => exact absurd (hi1.mp (Or.inl hstat)) hne
    | draw => exact absurd (hi1.mp (Or.inr hstat)) hne

/-- Witness for C6 at a concrete reachable session (one black move on a
fresh 5×5 board). -/
theorem status_terminal_iff_no_next_witness :
    (((applyMove (createGame 5 Player.B 3 false 0) 0 0 1).1.status =
        Status.won ∨
      (applyMove (createGame 5 Player.B 3 false 0) 0 0 1).1.status =
        Status.draw) ↔
      (applyMove (createGame 5 Player.B 3 false 0) 0 0 1).1.nextPlayer =
        none) ∧
    ((applyMove (createGame 5 Player.B 3 false 0) 0 0 1).1.status =
        Status.ongoing ↔
      (applyMove (createGame 5 Player.B 3 false 0) 0 0 1).1.nextPlayer ≠
        none) :=
  status_terminal_iff_no_next _
    (Reachable.move (createGame 5 Player.B 3 false 0) 0 0 1 _
      (Reachable.create 5 Player.B 3 false 0) (by decide))

/-- C7: for every reachable session — hence after every successful
`applyMove` and every successful `undo` along any valid move sequence —
the length of the move log equals the number of non-empty board
cells. -/
theorem moveLog_matches_stones (g : Game) (h : Reachable g) :
    g.moves.length = stoneCount g.board :=
  (reachable_inv g h).2.1

/-- Witness for C7 at a concrete reachable session (one black move on a
fresh 5×5 board): one logged move, one stone. -/
theorem moveLog_matches_stones_witness :
    (applyMove (createGame 5 Player.B 3 false 0) 0 0 1).1.moves.length =
      stoneCount (applyMove (createGame 5 Player.B 3 false 0) 0 0 1).1.board :=
  moveLog_matches_stones _
    (Reachable.move (createGame 5 Player.B 3 false 0) 0 0 1 _
      (Reachable.create 5 Player.B 3 false 0) (by decide))

/-- A move whose submitter does not match the expected current player is
never marked valid by `validateMove`, whichever check fires first. -/
lemma validateMove_wrong_turn (b : Board) (row col : Int)
    (p cur last : Player) (h : p ≠ cur) :
    (validateMove b row col p cur last).valid = false := by
  unfold validateMove
  dsimp only
  split
  · rfl
  · split
    · rfl
    · split
      · rfl
      · rfl

/-- C8 counterexample: in a room joined by `10`, `20` and the spectator
`30`, with one black stone on the board (so it is White's turn by stone
parity), a move submitted by the spectator `30` is accepted and written
to the board as a white stone, and broadcast — spectators are mapped to
`"W"` by `playerIndex === 0 ? "B" : "W"` rather than rejected. -/
theorem spectator_move_applied :
    specState.rooms 1 = some [10, 20, 30] ∧
    (handleMove specState 1 1 1 30).2 =
      [SockMsg.moveResult true none,
       SockMsg.moveBroadcast 1 1 Player.W] ∧
    (handleMove specState 1 1 1 30).1.boards 1 =
      some (setCell (setCell (createEmptyBoard 15) 0 0 (some Player.B)) 1 1
        (some Player.W)) := by decide

/-- C8 as amended: colors are derived from join order only insofar as
the first entry of the room's player list is Black and every other
submitter — the second seat, any later joiner, and unknown identifiers —
is White; a move whose derived color differs from the stone-parity
current player is rejected (reason `"Not your turn"` when the turn check
is the one that fires) and not applied to the board.  Spectators are not
otherwise excluded: a spectator's move is accepted whenever it is
White's turn. -/
theorem wrong_color_rejected (st : SockState) (roomId : Nat)
    (row col : Int) (player : Nat) (hroom : roomId ≠ 0)
    (hcolor : playerColorOf st.rooms roomId player ≠
      parityCurrent ((st.boards roomId).getD (createEmptyBoard 15))) :
    (∃ rsn, (handleMove st roomId row col player).2 =
      [SockMsg.moveResult false rsn]) ∧
    (handleMove st roomId row col player).1.boards roomId =
      some ((st.boards roomId).getD (createEmptyBoard 15)) ∧
    (∀ ps, st.rooms roomId = some ps →
      (playerColorOf st.rooms roomId player = Player.B ↔
        ps.findIdx? (fun q => q == player) = some 0)) := by
  have hval : (validateMove ((st.boards roomId).getD (createEmptyBoard 15))
      row col (playerColorOf st.rooms roomId player)
      (parityCurrent ((st.boards roomId).getD (createEmptyBoard 15)))
      (parityLast ((st.boards roomId).getD
        (createEmptyBoard 15)))).valid = false :=
    validateMove_wrong_turn _ _ _ _ _ _ hcolor
  unfold handleMove
  rw [if_neg hroom]
  dsimp only
  rw [if_neg (by rw [hval]; simp)]
  refine ⟨⟨(validateMove ((st.boards roomId).getD (createEmptyBoard 15))
      row col (playerColorOf st.rooms roomId player)
      (parityCurrent ((st.boards roomId).getD (createEmptyBoard 15)))
      (parityLast ((st.boards roomId).getD
        (createEmptyBoard 15)))).reason, ?_⟩, ?_, ?_⟩
  · rw [hval]
  · simp
  · intro ps hps
    unfold playerColorOf
    rw [hps]
    dsimp only
    split
    · rename_i hidx
      simp [hidx]
    · rename_i hidx
      constructor
      · intro hw; cases hw
      · intro hc; exact absurd hc hidx

/-- Witness for C8 (amended): the first joiner `10` of the spectator
room is Black, but it is White's turn, so `10`'s move is rejected and
the board stays as it was. -/
theorem wrong_color_rejected_witness :
    (1 : Nat) ≠ 0 ∧
    playerColorOf specState.rooms 1 10 ≠
      parityCurrent ((specState.boards 1).getD (createEmptyBoard 15)) ∧
    (∃ rsn, (handleMove specState 1 2 2 10).2 =
      [SockMsg.moveResult false rsn]) ∧
    (handleMove specState 1 2 2 10).1.boards 1 =
      some ((specState.boards 1).getD (createEmptyBoard 15)) :=
  have h1 : (1 : Nat) ≠ 0 := by decide
  have h2 : playerColorOf specState.rooms 1 10 ≠
      parityCurrent ((specState.boards 1).getD (createEmptyBoard 15)) := by
    decide
  have hc := wrong_color_rejected specState 1 2 2 10 h1 h2
  ⟨h1, h2, hc.1, hc.2.1⟩

/-- C10: a socket `"move"` event leaves the REST session store untouched
(no session ever transitions to Won or Draw through this path), leaves
the room membership map untouched, changes no room board other than the
addressed room's, and emits only a `moveResult` acknowledgement and — on
a valid move — the `{row, col, by}` broadcast; no message shape carries
a status or winner. -/
theorem socket_move_frame (st : SockState) (roomId : Nat) (row col : Int)
    (player : Nat) :
    (handleMove st roomId row col player).1.store = st.store ∧
    (handleMove st roomId row col player).1.rooms = st.rooms ∧
    (∀ rid, rid ≠ roomId →
      (handleMove st roomId row col player).1.boards rid = st.boards rid) ∧
    (∀ m ∈ (handleMove st roomId row col player).2,
      (∃ v rsn, m = SockMsg.moveResult v rsn) ∨
      m = SockMsg.moveBroadcast row col
        (playerColorOf st.rooms roomId player)) := by
  unfold handleMove
  split
  · refine ⟨rfl, rfl, fun rid _ => rfl, ?_⟩
    intro m hm
    rw [List.mem_singleton.mp hm]
    exact Or.inl ⟨false, some Reason.invalidData, rfl⟩
  · dsimp only
    split
    · refine ⟨rfl, rfl, fun rid hrid => ?_, ?_⟩
      · dsimp only
        rw [if_neg hrid]
      · intro m hm
        rcases List.mem_cons.mp hm with h | h
        · exact Or.inl ⟨_, _, h⟩
        · rw [List.mem_singleton.mp h]
          exact Or.inr rfl
    · refine ⟨rfl, rfl, fun rid hrid => ?_, ?_⟩
      · dsimp only
        rw [if_neg hrid]
      · intro m hm
        rw [List.mem_singleton.mp hm]
        exact Or.inl ⟨_, _, rfl⟩

/-- Witness for C10 at a concrete input: a move event for room `1` of an
empty server leaves the store and the board of room `2` untouched. -/
theorem socket_move_frame_witness :
    (handleMove emptySock 1 0 0 10).1.store = emptySock.store ∧
    (2 : Nat) ≠ 1 ∧
    (handleMove emptySock 1 0 0 10).1.boards 2 = emptySock.boards 2 :=
  have hf := socket_move_frame emptySock 1 0 0 10
  ⟨hf.1, by decide, hf.2.2.1 2 (by decide)⟩

end Gomoku
